import Mathlib

/-!
Verification development for the dynamic invoice line-item extraction
pipeline (`DynamicLineItemProcessor` in `MAIN.PY`).

The embedding translates, from the source:
  * the OCR word records handed to the pipeline (parallel arrays
    `text/left/top/width/height/conf`, modelled as a list of records),
  * the vendor pattern registry (`load_vendor_patterns`), including the
    regular-expression pattern strings exactly as they appear in the file
    (note: the source writes every backslash doubled inside raw strings,
    e.g. `r"\\b\\d{1,4}\\b"`, so the compiled patterns contain literal
    backslash characters; the embedding keeps those semantics),
  * `detect_table_region`, `extract_line_items_from_region`,
    `group_words_by_rows`, `parse_row_to_line_item`, and the orchestration
    in `process_invoice_with_dynamic_line_items`.

Python regular-expression matching (`re.findall` with `re.IGNORECASE`, and
`re.match`) is embedded by a small backtracking matcher over an explicit
pattern AST; each vendor pattern string from the source is hand-translated
into that AST, with the original string quoted in a comment.  A fuel
argument bounds the backtracking depth; the fuel supplied by the wrappers
exceeds the maximal possible depth of a match attempt.  Crucially, the
doubled backslashes put a quantifier on a bare `$` anchor in the price
patterns (`\\$?` = literal `\`, then `$?`) and in the first
description-word filter; CPython's `sre` parser rejects a quantified
anchor (`re.error: nothing to repeat`) in every version, so those
patterns never compile and the calls raise.  The embedding models this
with `patCompiles` and `Except PyErr` results (`pyFindall`,
`pyReMatch`), and the raised exception propagates uncaught through
`parse_row_to_line_item`, `extract_line_items_from_region` and
`process_invoice_with_dynamic_line_items`, exactly as in the source,
which has no handler on that path.

Numeric confidences (`0.8`, `min(fields_found / 5.0, 1.0)`) are modelled
in `ℚ` as exact rationals (`mkRat`); for the values that occur
(multiples of 1/5 clamped at 1) the float computation in the source and
the rational one agree on every comparison made by the claims.
-/

/-- One recognized OCR token: one index of the parallel arrays
`ocr_data['text'] / 'left' / 'top' / 'width' / 'height' / 'conf']`. -/
structure OcrWord where
  text : String
  left : Int
  top : Int
  width : Int
  height : Int
  conf : Int
deriving Repr, DecidableEq

/-- `LineItem` dataclass from the source (all string fields default `""`,
`confidence` defaults `0.0`, `bounding_box` defaults `None` and is never
assigned by `parse_row_to_line_item`). -/
structure LineItem where
  item_number : String := ""
  description : String := ""
  quantity : String := ""
  unit_price : String := ""
  total_price : String := ""
  confidence : ℚ := 0
  bounding_box : Option (Int × Int × Int × Int) := none
deriving Repr, DecidableEq

/-- `TableRegion` dataclass from the source. -/
structure TableRegion where
  x : Int
  y : Int
  width : Int
  height : Int
  confidence : ℚ := 0
deriving Repr, DecidableEq

/-! ## Python string helpers -/

/-- Remove leading and trailing whitespace from a character list. -/
def trimChars (l : List Char) : List Char :=
  ((l.dropWhile Char.isWhitespace).reverse.dropWhile
    Char.isWhitespace).reverse

/-- Python `str.strip()` (whitespace trimming). -/
def pyStrip (s : String) : String := String.mk (trimChars s.toList)

/-- Truthiness of `word.strip()` in the source: the trimmed text is
non-empty. -/
def hasNonWS (s : String) : Bool := pyStrip s ≠ ""

/-- Python `str.lower()` (ASCII case folding, as in the source's
inputs). -/
def pyLower (s : String) : String := String.mk (s.toList.map Char.toLower)

/-- Python `min` on two rationals (used for the confidence clamp). -/
def pyMinQ (a b : ℚ) : ℚ := if Rat.blt b a then b else a

/-- Whether the first list is a prefix of the second. -/
def listPrefixOf : List Char → List Char → Bool
  | [], _ => true
  | _ :: _, [] => false
  | c :: cs, d :: ds => c = d && listPrefixOf cs ds

/-- Whether the first list occurs as a contiguous segment of the
second. -/
def listInfixOf (needle : List Char) : List Char → Bool
  | [] => needle.isEmpty
  | d :: ds => listPrefixOf needle (d :: ds) || listInfixOf needle ds

/-- Python `needle in hay` on strings: substring containment. -/
def pyContains (hay needle : String) : Bool :=
  listInfixOf needle.toList hay.toList

/-- `any(keyword.lower() in s.lower() for keyword in kws)` from the
source's keyword scans. -/
def containsAnyKeyword (kws : List String) (s : String) : Bool :=
  kws.any (fun k => pyContains (pyLower s) (pyLower k))

/-- Python `s.replace('$', '')`: removes every dollar sign. -/
def pyReplaceDollar (s : String) : String :=
  String.mk (s.toList.filter (fun c => c ≠ '$'))

/-! ## Regular-expression engine

The source's patterns use only: literal characters, character classes
built from ranges and single characters, `.`, the anchors `^` and `$`,
and the quantifiers `?`, `+`, `*`, `{m}`, `{m,n}`, `{m,}`.  A pattern is
a concatenation of quantified atoms; matching is Python's leftmost,
greedy, backtracking semantics. -/

/-- A single regex atom. -/
inductive RElem where
  /-- literal character -/
  | lit (c : Char)
  /-- character class: list of inclusive ranges (single chars as
  degenerate ranges) -/
  | cls (ranges : List (Char × Char))
  /-- `.` (any character except newline) -/
  | dot
  /-- `^` anchor -/
  | bol
  /-- `$` anchor -/
  | eol
deriving Repr, DecidableEq

/-- A quantified atom: atom, minimum count, maximum count (`none` = ∞). -/
abbrev QElem := RElem × Nat × Option Nat

/-- A pattern: concatenation of quantified atoms. -/
abbrev Regex := List QElem

def charInRanges (c : Char) (rs : List (Char × Char)) : Bool :=
  rs.any (fun p => p.1 ≤ c && c ≤ p.2)

/-- Whether a (width-one) atom matches a character; `ic` is the
`re.IGNORECASE` flag (ASCII case folding, as in the source's inputs). -/
def atomMatchesChar (ic : Bool) (a : RElem) (c : Char) : Bool :=
  match a with
  | .lit d => c = d || (ic && c.toLower = d.toLower)
  | .cls rs =>
      charInRanges c rs ||
        (ic && (charInRanges c.toLower rs || charInRanges c.toUpper rs))
  | .dot => c ≠ '\n'
  | .bol => false
  | .eol => false

/-- Apply one atom at position `i` of the text `s` (length `n`); returns
the next position on success.  `$` matches at the end of the text or just
before a final newline, consuming nothing; `^` matches at position 0. -/
def atomStep (ic : Bool) (s : List Char) (n : Nat) (a : RElem) (i : Nat) :
    Option Nat :=
  match a with
  | .bol => if i = 0 then some i else none
  | .eol =>
      if i = n then some i
      else if i + 1 = n ∧ s[i]? = some '\n' then some i else none
  | _ =>
      match s[i]? with
      | some c => if atomMatchesChar ic a c then some (i + 1) else none
      | none => none

/-- Apply an atom exactly `k` times in sequence (the mandatory part of a
quantifier). -/
def atomReps (ic : Bool) (s : List Char) (n : Nat) (a : RElem) :
    Nat → Nat → Option Nat
  | i, 0 => some i
  | i, k + 1 =>
      match atomStep ic s n a i with
      | some j => atomReps ic s n a j k
      | none => none

/-- Fuel bound: an over-approximation of the depth of any backtracking
path for pattern `es` over a text of length `n`. -/
def fuelFor (es : Regex) (n : Nat) : Nat :=
  es.foldl
    (fun acc e =>
      acc + (match e.2.2 with | some h => h | none => n + 1) + 2)
    (n + 2)

/-- The backtracking matcher, structurally recursive on a fuel bound.
With `mode = none` the next quantified atom of the pattern is started
(its mandatory `lo` repetitions applied at once); with
`mode = some (a, m)` the matcher is in the greedy phase of atom `a`
with `m` optional repetitions left: it prefers consuming one more
occurrence and falls back to the rest of the pattern on failure. -/
def reRun (ic : Bool) (s : List Char) (n : Nat) :
    Nat → Option (RElem × Nat) → Regex → Nat → Option Nat
  | 0, _, _, _ => none
  | _ + 1, none, [], i => some i
  | f + 1, none, (a, lo, hi) :: rest, i =>
      match atomReps ic s n a i lo with
      | none => none
      | some j =>
          let m := match hi with | some h => h - lo | none => n + 1 - j
          reRun ic s n f (some (a, m)) rest j
  | f + 1, some (_, 0), rest, i => reRun ic s n f none rest i
  | f + 1, some (a, m + 1), rest, i =>
      match atomStep ic s n a i with
      | some j =>
          match reRun ic s n f (some (a, m)) rest j with
          | some e => some e
          | none => reRun ic s n f none rest i
      | none => reRun ic s n f none rest i

/-- Match the concatenation `es` at position `i`; returns the end
position of the (greedy, backtracking-first) match. -/
def reSeq (ic : Bool) (s : List Char) (n : Nat) (f : Nat) (es : Regex)
    (i : Nat) : Option Nat :=
  reRun ic s n f none es i

/-- Scan positions left to right collecting non-overlapping matches:
Python `re.findall` (the source's patterns contain no groups, so
`findall` returns whole-match strings). -/
def reFindAllAux (ic : Bool) (pat : Regex) (s : List Char) (n : Nat) :
    Nat → Nat → List String
  | 0, _ => []
  | f + 1, i =>
      if i > n then []
      else
        match reSeq ic s n (fuelFor pat n) pat i with
        | some e =>
            let matched := String.mk ((s.drop i).take (e - i))
            if i < e then matched :: reFindAllAux ic pat s n f e
            else matched :: reFindAllAux ic pat s n f (i + 1)
        | none => reFindAllAux ic pat s n f (i + 1)

/-- `re.findall(pattern, text, flags)`. -/
def findall (ic : Bool) (pat : Regex) (t : String) : List String :=
  reFindAllAux ic pat t.toList t.toList.length (t.toList.length + 2) 0

/-- Truthiness of `re.match(pattern, text)`: a match anchored at
position 0 (defined only for patterns `re` accepts, see `pyReMatch`). -/
def reMatches (ic : Bool) (pat : Regex) (t : String) : Bool :=
  (reSeq ic t.toList t.toList.length (fuelFor pat t.toList.length)
    pat 0).isSome

/-- A Python exception escaping a `re` call.  CPython's `sre` parser
rejects a quantifier applied to a zero-width anchor (`$?`, `^*`, …)
with `re.error: nothing to repeat`, and has done so in every version;
patterns containing one never compile. -/
inductive PyErr where
  | reNothingToRepeat
deriving Repr, DecidableEq

instance {ε α : Type} [DecidableEq ε] [DecidableEq α] :
    DecidableEq (Except ε α) := fun a b =>
  match a, b with
  | .error e, .error f =>
      if h : e = f then isTrue (by rw [h]) else isFalse (by simp [h])
  | .ok x, .ok y =>
      if h : x = y then isTrue (by rw [h]) else isFalse (by simp [h])
  | .error _, .ok _ => isFalse (by simp)
  | .ok _, .error _ => isFalse (by simp)

/-- Whether `re.compile` accepts the pattern: every anchor must be
unquantified (`lo = hi = 1`); quantifiers on any other atom are fine. -/
def patCompiles (p : Regex) : Bool :=
  p.all (fun e =>
    match e.1 with
    | .bol => e.2.1 = 1 && e.2.2 = some 1
    | .eol => e.2.1 = 1 && e.2.2 = some 1
    | _ => true)

/-- `re.findall(pattern, text, flags)` including the compile step: a
pattern with a quantified anchor raises `re.error` before any text is
examined. -/
def pyFindall (ic : Bool) (pat : Regex) (t : String) :
    Except PyErr (List String) :=
  if patCompiles pat then .ok (findall ic pat t)
  else .error .reNothingToRepeat

/-- `re.match(pattern, text)` including the compile step (result is the
match's truthiness). -/
def pyReMatch (ic : Bool) (pat : Regex) (t : String) : Except PyErr Bool :=
  if patCompiles pat then .ok (reMatches ic pat t)
  else .error .reNothingToRepeat

/-! ## Vendor pattern registry (`load_vendor_patterns`)

Each regular-expression AST below is the translation of the raw pattern
string found in the source.  The source writes every backslash doubled
(e.g. `r"\\b\\d{1,4}\\b"` is a raw string whose compiled pattern contains
literal backslash characters), so `\\b` denotes literal `\` then literal
`b`, `\\d{1,4}` denotes literal `\` then `d` repeated 1–4 times, and
`\\.` denotes literal `\` then `.` (any character).  `\\$?` denotes
literal `\` then a `?`-quantified `$` anchor — a construct `re.compile`
rejects (`patCompiles` is false for such an AST), so the patterns
containing it always raise. -/

structure VendorPattern where
  table_start_keywords : List String
  table_end_keywords : List String
  item_number_pat : Regex
  description_pat : Regex
  quantity_pat : Regex
  unit_price_pat : Regex
  total_price_pat : Regex
deriving Repr

/-- Shorthand for an unquantified atom. -/
def q1 (a : RElem) : QElem := (a, 1, some 1)

/-- `r"\\$?\\d+\\.\\d{2}"` (the `unit_price`/`total_price` pattern of
`acme` and `generic`).  Contains a quantified `$` anchor, so
`patCompiles priceOptPat = false`: `re.findall` with it raises
`re.error` on every Python. -/
def priceOptPat : Regex :=
  [q1 (.lit '\\'), (.eol, 0, some 1), q1 (.lit '\\'), (.lit 'd', 1, none),
   q1 (.lit '\\'), q1 .dot, q1 (.lit '\\'), (.lit 'd', 2, some 2)]

/-- `r"\\$\\d+\\.\\d{2}"` (the `techsupply` price pattern). -/
def priceBarePat : Regex :=
  [q1 (.lit '\\'), q1 .eol, q1 (.lit '\\'), (.lit 'd', 1, none),
   q1 (.lit '\\'), q1 .dot, q1 (.lit '\\'), (.lit 'd', 2, some 2)]

/-- `r"[A-Za-z][A-Za-z\\s-]{5,50}"`. -/
def descPat5 : Regex :=
  [q1 (.cls [('A', 'Z'), ('a', 'z')]),
   (.cls [('A', 'Z'), ('a', 'z'), ('\\', '\\'), ('s', 's'), ('-', '-')],
    5, some 50)]

/-- `r"[A-Za-z][A-Za-z\\s-]{10,60}"`. -/
def descPat10 : Regex :=
  [q1 (.cls [('A', 'Z'), ('a', 'z')]),
   (.cls [('A', 'Z'), ('a', 'z'), ('\\', '\\'), ('s', 's'), ('-', '-')],
    10, some 60)]

/-- `r"\\b\\d{1,4}\\b"`. -/
def qtyPat14 : Regex :=
  [q1 (.lit '\\'), q1 (.lit 'b'), q1 (.lit '\\'), (.lit 'd', 1, some 4),
   q1 (.lit '\\'), q1 (.lit 'b')]

/-- `r"\\b\\d{1,3}\\b"`. -/
def qtyPat13 : Regex :=
  [q1 (.lit '\\'), q1 (.lit 'b'), q1 (.lit '\\'), (.lit 'd', 1, some 3),
   q1 (.lit '\\'), q1 (.lit 'b')]

/-- `r"\\b\\d{3,6}\\b"` (`acme` `item_number`). -/
def acmeItemPat : Regex :=
  [q1 (.lit '\\'), q1 (.lit 'b'), q1 (.lit '\\'), (.lit 'd', 3, some 6),
   q1 (.lit '\\'), q1 (.lit 'b')]

/-- `r"TS-\\d{4,}"` (`techsupply` `item_number`). -/
def tsItemPat : Regex :=
  [q1 (.lit 'T'), q1 (.lit 'S'), q1 (.lit '-'), q1 (.lit '\\'),
   (.lit 'd', 4, none)]

/-- `r"\\b[A-Z0-9-]{3,10}\\b"` (`generic` `item_number`). -/
def genericItemPat : Regex :=
  [q1 (.lit '\\'), q1 (.lit 'b'),
   (.cls [('A', 'Z'), ('0', '9'), ('-', '-')], 3, some 10),
   q1 (.lit '\\'), q1 (.lit 'b')]

def acmePattern : VendorPattern :=
  { table_start_keywords := ["Item", "Description", "Qty", "Price", "Total"]
    table_end_keywords := ["Subtotal", "Tax", "Total Due"]
    item_number_pat := acmeItemPat
    description_pat := descPat5
    quantity_pat := qtyPat13
    unit_price_pat := priceOptPat
    total_price_pat := priceOptPat }

def techsupplyPattern : VendorPattern :=
  { table_start_keywords := ["Part#", "Item", "Qty", "Unit Cost", "Amount"]
    table_end_keywords := ["Subtotal", "Sales Tax", "Total"]
    item_number_pat := tsItemPat
    description_pat := descPat10
    quantity_pat := qtyPat14
    unit_price_pat := priceBarePat
    total_price_pat := priceBarePat }

def genericPattern : VendorPattern :=
  { table_start_keywords :=
      ["Item", "Description", "Quantity", "Price", "Amount", "Total"]
    table_end_keywords := ["Subtotal", "Tax", "Total", "Amount Due"]
    item_number_pat := genericItemPat
    description_pat := descPat5
    quantity_pat := qtyPat14
    unit_price_pat := priceOptPat
    total_price_pat := priceOptPat }

/-- The registry `self.vendor_patterns[vendor_type]`; `none` models the
`KeyError` for an unknown vendor identifier. -/
def load_vendor_patterns (vendor : String) : Option VendorPattern :=
  if vendor = "acme" then some acmePattern
  else if vendor = "techsupply" then some techsupplyPattern
  else if vendor = "generic" then some genericPattern
  else none

/-! ## Row classifier (`parse_row_to_line_item`) -/

/-- The header keyword list from `parse_row_to_line_item`. -/
def headerKeywords : List String :=
  ["Item", "Description", "Qty", "Price", "Total", "Part#", "Amount"]

/-- `matches[0]` when non-empty, else leave the field `""`. -/
def headD (l : List String) : String :=
  match l with
  | [] => ""
  | m :: _ => m

/-- `matches[-1]` when non-empty, else leave the field `""`. -/
def lastD (l : List String) : String := l.getLastD ""

/-- `r'^\\$?\\d+\\.?\\d*$'` (first description-word filter; used with
`re.match`, no flags).  Contains a quantified `$` anchor, so
`patCompiles descNumPat1 = false`: `re.match` with it raises `re.error`
for every word it is tried on. -/
def descNumPat1 : Regex :=
  [q1 .bol, q1 (.lit '\\'), (.eol, 0, some 1), q1 (.lit '\\'),
   (.lit 'd', 1, none), q1 (.lit '\\'), (.dot, 0, some 1),
   q1 (.lit '\\'), (.lit 'd', 0, none), q1 .eol]

/-- `r'^\\d{1,4}$'` (second description-word filter). -/
def descNumPat2 : Regex :=
  [q1 .bol, q1 (.lit '\\'), (.lit 'd', 1, some 4), q1 .eol]

/-- The description-word loop from `parse_row_to_line_item`:
`if (text and not re.match(p1, text) and not re.match(p2, text) and
len(text) > 2)`, evaluated left to right per word, collecting the
stripped texts that qualify.  `text` falsy short-circuits before any
`re.match`; a non-blank text reaches `re.match` with `descNumPat1`,
which raises (the pattern never compiles). -/
def buildDescWords : List OcrWord → Except PyErr (List String)
  | [] => .ok []
  | w :: ws =>
      let text := pyStrip w.text
      if text = "" then buildDescWords ws
      else
        match pyReMatch false descNumPat1 text with
        | .error e => .error e
        | .ok m1 =>
            if m1 then buildDescWords ws
            else
              match pyReMatch false descNumPat2 text with
              | .error e => .error e
              | .ok m2 =>
                  if m2 then buildDescWords ws
                  else if text.length > 2 then
                    (buildDescWords ws).map (fun rest => text :: rest)
                  else buildDescWords ws

/-- The row text `" ".join(w['text'] for w in row_words)`. -/
def rowTextOf (row : List OcrWord) : String :=
  String.intercalate " " (row.map (fun w => w.text))

/-- `parse_row_to_line_item(row_words, patterns)`.  The two early
filters return `None` before any regular expression is touched.  An
accepted row then runs `re.findall` for each column pattern in the
dict's insertion order — `item_number`, `description` (result
discarded: no branch of the `if`/`elif` chain handles that field),
`quantity`, `unit_price`, `total_price` — and finally the
description-word loop; the first `re` call whose pattern does not
compile raises, and the exception escapes the function. -/
def parse_row_to_line_item (row : List OcrWord) (pat : VendorPattern) :
    Except PyErr (Option LineItem) :=
  if row.length < 2 then .ok none
  else
    let row_text := rowTextOf row
    if containsAnyKeyword headerKeywords row_text then .ok none
    else
      match pyFindall true pat.item_number_pat row_text with
      | .error e => .error e
      | .ok itemMs =>
      match pyFindall true pat.description_pat row_text with
      | .error e => .error e
      | .ok _ =>
      match pyFindall true pat.quantity_pat row_text with
      | .error e => .error e
      | .ok qtyMs =>
      match pyFindall true pat.unit_price_pat row_text with
      | .error e => .error e
      | .ok unitMs =>
      match pyFindall true pat.total_price_pat row_text with
      | .error e => .error e
      | .ok totalMs =>
      match buildDescWords row with
      | .error e => .error e
      | .ok descWords =>
          let item_number := headD itemMs
          let quantity := headD qtyMs
          let unit_price := pyReplaceDollar (headD unitMs)
          let total_price := pyReplaceDollar (lastD totalMs)
          let description := String.intercalate " " (descWords.take 5)
          let fieldsFound :=
            [item_number, description, quantity, unit_price,
             total_price].countP (fun f => f != "")
          .ok (some { item_number, description, quantity, unit_price,
                      total_price
                      confidence := pyMinQ (mkRat fieldsFound 5) 1
                      bounding_box := none })

/-! ## Row grouper (`group_words_by_rows`) -/

/-- Insert into a key-sorted list after all entries with key ≤ the new
key: the stable ascending sort used to model Python's `sort`/`sorted`. -/
def insSorted (key : OcrWord → Int) (a : OcrWord) :
    List OcrWord → List OcrWord
  | [] => [a]
  | b :: bs => if key b ≤ key a then b :: insSorted key a bs else a :: b :: bs

/-- Stable ascending sort by `key` (insertion sort). -/
def sortByKey (key : OcrWord → Int) (l : List OcrWord) : List OcrWord :=
  l.foldl (fun acc w => insSorted key w acc) []

/-- The grouping loop: `cur` is the open row (never empty), `curY` its
anchor (the `current_y` of the source, fixed at the row's first word). -/
def group_rows_aux : List OcrWord → List OcrWord → Int → List (List OcrWord)
  | [], cur, _ => [sortByKey (fun w => w.left) cur]
  | w :: rest, cur, curY =>
      if (w.top - curY).natAbs ≤ 10 then group_rows_aux rest (cur ++ [w]) curY
      else sortByKey (fun w => w.left) cur :: group_rows_aux rest [w] w.top

/-- `group_words_by_rows(words, tolerance=10)` (all call sites use the
default tolerance). -/
def group_words_by_rows (ws : List OcrWord) : List (List OcrWord) :=
  match sortByKey (fun w => w.top) ws with
  | [] => []
  | w :: rest => group_rows_aux rest [w] w.top

/-! ## Table region detector (`detect_table_region`) -/

/-- The table-start scan: first word with non-blank text containing any
start keyword (case-insensitively). -/
def findStartWord (ws : List OcrWord) (pat : VendorPattern) :
    Option OcrWord :=
  ws.find? (fun w =>
    hasNonWS w.text && containsAnyKeyword pat.table_start_keywords w.text)

/-- The table-end scan.  The guard models
`if table_start_y and tops[i] > table_start_y` including Python's
truthiness: when `table_start_y` is `None` or `0` the condition is
falsy and the `break` is never reached. -/
def findEndTop (ws : List OcrWord) (pat : VendorPattern)
    (startY : Option Int) : Option Int :=
  (ws.find? (fun w =>
      hasNonWS w.text && containsAnyKeyword pat.table_end_keywords w.text &&
      (match startY with
       | some sy => !(sy = 0 : Bool) && sy < w.top
       | none => false))).map (fun w => w.top)

/-- `max(tops)`; the source raises on an empty list, but every use is
guarded by a successful start scan, so the list is non-empty there. -/
def maxTopAll : List OcrWord → Int
  | [] => 0
  | w :: ws => ws.foldl (fun m v => max m v.top) w.top

/-- `max(heights)` (same remark as `maxTopAll`). -/
def maxHeightAll : List OcrWord → Int
  | [] => 0
  | w :: ws => ws.foldl (fun m v => max m v.height) w.height

/-- `table_end_y`: the end scan's hit, or
`max(tops) + max(heights)` when the scan found nothing. -/
def tableEndY (ws : List OcrWord) (pat : VendorPattern) (sy : Int) : Int :=
  match findEndTop ws pat (some sy) with
  | some e => e
  | none => maxTopAll ws + maxHeightAll ws

/-- The words entering the horizontal-bound computation:
`table_start_y <= tops[i] <= table_end_y and word.strip()`. -/
def bandOf (ws : List OcrWord) (sy ey : Int) : List OcrWord :=
  ws.filter (fun w => sy ≤ w.top && w.top ≤ ey && hasNonWS w.text)

/-- `min(lefts[i] ...)` over the band. -/
def bandMinLeft (b : OcrWord) (bs : List OcrWord) : Int :=
  bs.foldl (fun m w => min m w.left) b.left

/-- `max(lefts[i] + widths[i] ...)` over the band. -/
def bandMaxRight (b : OcrWord) (bs : List OcrWord) : Int :=
  bs.foldl (fun m w => max m (w.left + w.width)) (b.left + b.width)

/-- Assemble the `TableRegion` from the band; the `[]` branch models the
`ValueError` Python's `min`/`max` would raise on an empty band (which
cannot happen for OCR words, whose heights are non-negative). -/
def regionFrom (sy ey : Int) : List OcrWord → Option TableRegion
  | [] => none
  | b :: bs =>
      some { x := bandMinLeft b bs, y := sy
             width := bandMaxRight b bs - bandMinLeft b bs
             height := ey - sy
             confidence := mkRat 4 5 }

/-- `detect_table_region(ocr_data, vendor_type)` after the registry
lookup resolved `vendor_type` to `pat`. -/
def detect_table_region (ws : List OcrWord) (pat : VendorPattern) :
    Option TableRegion :=
  match findStartWord ws pat with
  | none => none
  | some sw =>
      regionFrom sw.top (tableEndY ws pat sw.top)
        (bandOf ws sw.top (tableEndY ws pat sw.top))

/-! ## Extraction (`extract_line_items_from_region`) and orchestration -/

/-- The per-word filter of `extract_line_items_from_region`: non-blank
text, confidence strictly above 30, and left/top inside the region. -/
def wordInRegion (r : TableRegion) (w : OcrWord) : Bool :=
  hasNonWS w.text && w.conf > 30 &&
  r.x ≤ w.left && w.left ≤ r.x + r.width &&
  r.y ≤ w.top && w.top ≤ r.y + r.height

/-- The append guard `line_item and any([item_number, description,
quantity])` (a `LineItem` instance is always truthy; empty strings are
falsy). -/
def keepLineItem (li : LineItem) : Bool :=
  li.item_number != "" || li.description != "" || li.quantity != ""

/-- The collection loop over grouped rows: a raised exception aborts
the loop (and the remaining rows) immediately; a `None` row is skipped;
a `LineItem` passing the guard is appended in order. -/
def collectLineItems (rows : List (List OcrWord)) (pat : VendorPattern) :
    Except PyErr (List LineItem) :=
  match rows with
  | [] => .ok []
  | row :: rest =>
      match parse_row_to_line_item row pat with
      | .error e => .error e
      | .ok none => collectLineItems rest pat
      | .ok (some li) =>
          match collectLineItems rest pat with
          | .error e => .error e
          | .ok items => .ok (if keepLineItem li then li :: items else items)

/-- `extract_line_items_from_region(ocr_data, table_region, vendor_type)`
after the registry lookup; an exception from row classification
propagates out unhandled. -/
def extract_line_items_from_region (ws : List OcrWord)
    (region : Option TableRegion) (pat : VendorPattern) :
    Except PyErr (List LineItem) :=
  match region with
  | none => .ok []
  | some r =>
      collectLineItems (group_words_by_rows (ws.filter (wordInRegion r))) pat

/-- The outcome of one pipeline run: the `{"error": "OCR Error: ..."}`
result, the `{"error": "Could not detect table region in invoice"}`
result, an uncaught Python exception escaping the call (the pipeline
has no handler between `detect_table_region` and its return), or the
assembled success payload. -/
inductive PipeResult where
  | recognitionFailure (msg : String)
  | regionNotFound
  | uncaughtException (e : PyErr)
  | success (vendor : String) (region : TableRegion)
      (items : List LineItem)
deriving Repr, DecidableEq

/-- The line items carried by a result (a failure result carries none). -/
def pipeLineItems : PipeResult → List LineItem
  | .success _ _ items => items
  | _ => []

/-- `process_invoice_with_dynamic_line_items(pdf_file, vendor_type)`
from the recognition collaborator's output onward: `input` is that
collaborator's result (`.error` when OCR raised), `pat` the registry
entry for `vendor`. -/
def process_invoice_with_dynamic_line_items
    (input : Except String (List OcrWord)) (vendor : String)
    (pat : VendorPattern) : PipeResult :=
  match input with
  | .error e => .recognitionFailure ("OCR Error: " ++ e)
  | .ok ws =>
      match detect_table_region ws pat with
      | none => .regionNotFound
      | some r =>
          match extract_line_items_from_region ws (some r) pat with
          | .error e => .uncaughtException e
          | .ok items => .success vendor r items

/-! ## Concrete inputs used by the claim theorems -/

set_option maxRecDepth 10000

/-- Build an `OcrWord` (confidence defaults to a comfortably passing
90). -/
def mkWord (t : String) (x y : Int) (w h : Int := 0) (c : Int := 90) :
    OcrWord :=
  { text := t, left := x, top := y, width := w, height := h, conf := c }

/-- The spec's reference input: a header row, one data row at `y = 100`,
and a `Subtotal` footer at `y = 150`. -/
def scenarioWords : List OcrWord :=
  [mkWord "Item" 10 50 40 10, mkWord "Description" 60 50 40 10,
   mkWord "Qty" 200 50 40 10, mkWord "Price" 250 50 40 10,
   mkWord "Total" 300 50 40 10,
   mkWord "101" 10 100 40 10, mkWord "WidgetA" 60 100 40 10,
   mkWord "2" 200 100 40 10, mkWord "5.00" 250 100 40 10,
   mkWord "10.00" 300 100 40 10,
   mkWord "Subtotal" 10 150 60 10]

/-- The value the spec describes for the end-of-table default: the
maximum of `top + height` over all words (the largest bottom edge).
Defined from the spec's words, for comparison with the source's
`max(tops) + max(heights)`. -/
def specMaxBottomEdge : List OcrWord → Int
  | [] => 0
  | w :: ws => ws.foldl (fun m v => max m (v.top + v.height)) (w.top + w.height)

/-- Two words whose top and height maxima come from different words:
`Item` (top 10, height 100) starts the table, `abc` (top 50, height
10) is below it; no end keyword occurs. -/
def c2Input : List OcrWord :=
  [mkWord "Item" 0 10 10 100, mkWord "abc" 0 50 10 10]

/-- The spec's two-currency-match row: `"3 Widget $10.00 $30.00"`. -/
def twoPriceRow : List OcrWord :=
  [mkWord "3" 10 100 10 10, mkWord "Widget" 60 100 40 10,
   mkWord "$10.00" 200 100 40 10, mkWord "$30.00" 300 100 40 10]

/-- A word list in which no word contains a start keyword. -/
def c4Input : List OcrWord := [mkWord "hello" 0 0 40 10]

/-- A band word (`abc`, top 99, height 100) whose bounding box extends
below the region bottom set by the `Subtotal` end anchor at top 100. -/
def c7Input : List OcrWord :=
  [mkWord "Item" 0 10 40 10, mkWord "abc" 0 99 40 100,
   mkWord "Subtotal" 0 100 60 10]

/-- The closest candidate for a "price-only" row: each word's text is
the eight characters `\\d\.\dd` — the only kind of text the
(backslash-containing) price pattern could describe.  Classifying it
raises `re.error` at the `unit_price` findall. -/
def slashRow : List OcrWord :=
  [mkWord "\\\\d\\.\\dd" 10 100 40 10, mkWord "\\\\d\\.\\dd" 200 100 40 10]

/-- A table whose start anchor sits at the very top of the page
(`top = 0`) with an end-keyword word strictly below it. -/
def c10Input : List OcrWord :=
  [mkWord "Item" 0 0 40 10, mkWord "Subtotal" 0 100 60 10]

/-! ## Helper lemmas -/

/-- The two rejection tests at the top of `parse_row_to_line_item`:
rows that are too short or contain a header keyword return `None`
(no regular expression is touched on these branches, so no exception
can occur). -/
theorem parse_none_of_reject (row : List OcrWord) (pat : VendorPattern)
    (h : row.length < 2 ∨
      containsAnyKeyword headerKeywords (rowTextOf row) = true) :
    parse_row_to_line_item row pat = .ok none := by
  rcases h with hlen | hkw
  · simp [parse_row_to_line_item, hlen]
  · by_cases hlen : row.length < 2
    · simp [parse_row_to_line_item, hlen]
    · simp [parse_row_to_line_item, hlen, hkw]

/-! ## Claim theorems -/

/-- C1 (the code refutes the claim): on the spec's reference input with
the generic vendor pattern, table detection succeeds, but classifying
the first accepted row (`"101 WidgetA 2 5.00 10.00"`) raises
`re.error: nothing to repeat` at the `unit_price` findall — the
doubled-backslash pattern `r"\\$?\\d+\\.\\d{2}"` quantifies a `$`
anchor and never compiles on any CPython — so the run ends in an
uncaught exception instead of the claimed one-item success with
confidence 1.0. -/
theorem c1_reference_input_actual_output :
    detect_table_region scenarioWords genericPattern =
        some ⟨10, 50, 330, 100, mkRat 4 5⟩ ∧
    process_invoice_with_dynamic_line_items (.ok scenarioWords) "generic"
        genericPattern = .uncaughtException .reNothingToRepeat := by
  exact ⟨by decide, by decide⟩

/-- C3 (the code refutes the claim's example): on the row
`"3 Widget $10.00 $30.00"` the classifier never selects `"10.00"` and
`"30.00"` — it raises `re.error: nothing to repeat` at the
`unit_price` findall, because the doubled-backslash price pattern
quantifies a `$` anchor and never compiles on any CPython. -/
theorem c3_two_price_row_actual_output :
    parse_row_to_line_item twoPriceRow genericPattern =
      .error .reNothingToRepeat := by
  decide

/-- C4: for every word list in which no word's text case-insensitively
contains a table-start keyword, the pipeline returns the explicit
region-not-found result, which carries zero line items and differs from
every recognition-failure result. -/
theorem c4_region_not_found (ws : List OcrWord)
    (h : ∀ w ∈ ws,
      containsAnyKeyword genericPattern.table_start_keywords w.text
        = false) :
    process_invoice_with_dynamic_line_items (.ok ws) "generic"
        genericPattern = .regionNotFound ∧
    pipeLineItems (process_invoice_with_dynamic_line_items (.ok ws)
        "generic" genericPattern) = [] ∧
    ∀ msg, process_invoice_with_dynamic_line_items (.ok ws) "generic"
        genericPattern ≠ .recognitionFailure msg := by
  have hfs : findStartWord ws genericPattern = none := by
    refine List.find?_eq_none.mpr ?_
    intro w hw
    simp [h w hw]
  have hdet : detect_table_region ws genericPattern = none := by
    simp [detect_table_region, hfs]
  refine ⟨?_, ?_, ?_⟩ <;>
    simp [process_invoice_with_dynamic_line_items, hdet, pipeLineItems]

/-- Witness for C4 at a concrete one-word stream. -/
theorem c4_region_not_found_witness :
    process_invoice_with_dynamic_line_items (.ok c4Input) "generic"
        genericPattern = .regionNotFound ∧
    pipeLineItems (process_invoice_with_dynamic_line_items (.ok c4Input)
        "generic" genericPattern) = [] := by
  have h := c4_region_not_found c4Input (by decide)
  exact ⟨h.1, h.2.1⟩

/-- C5: rows with fewer than 2 words, and rows whose concatenated text
contains a header keyword, produce no `LineItem`; in particular a row
containing both `"Description"` and `"Qty"` is always dropped, and a
one-word row yields nothing. -/
theorem c5_row_rejection :
    (∀ (row : List OcrWord) (pat : VendorPattern),
        row.length < 2 ∨
          containsAnyKeyword headerKeywords (rowTextOf row) = true →
        parse_row_to_line_item row pat = .ok none) ∧
    (∀ (row : List OcrWord) (pat : VendorPattern),
        containsAnyKeyword ["Description"] (rowTextOf row) = true →
        containsAnyKeyword ["Qty"] (rowTextOf row) = true →
        parse_row_to_line_item row pat = .ok none) ∧
    (∀ (w : OcrWord) (pat : VendorPattern),
        parse_row_to_line_item [w] pat = .ok none) := by
  refine ⟨fun row pat h => parse_none_of_reject row pat h, ?_, ?_⟩
  · intro row pat hd _hq
    refine parse_none_of_reject row pat (Or.inr ?_)
    simp only [containsAnyKeyword, List.any_eq_true] at hd ⊢
    obtain ⟨k, hk, hpk⟩ := hd
    simp only [List.mem_singleton] at hk
    subst hk
    exact ⟨"Description", by simp [headerKeywords], hpk⟩
  · intro w pat
    exact parse_none_of_reject [w] pat (Or.inl (by simp))

/-- Witness for C5: a `Description`/`Qty` row and a one-word row are
both dropped. -/
theorem c5_row_rejection_witness :
    parse_row_to_line_item
        [mkWord "Description" 0 0 40 10, mkWord "Qty" 60 0 40 10]
        genericPattern = .ok none ∧
    parse_row_to_line_item [mkWord "onlyword" 0 0 40 10]
        genericPattern = .ok none := by
  constructor
  · exact c5_row_rejection.2.1 _ genericPattern (by decide) (by decide)
  · exact c5_row_rejection.2.2 (mkWord "onlyword" 0 0 40 10) genericPattern

/-- C8: a word enters the table-word list (the input to row grouping
and classification) only if its trimmed text is non-empty and its
confidence is strictly above 30; a word whose confidence is exactly 30
never enters it. -/
theorem c8_confidence_filter (ws : List OcrWord) (r : TableRegion)
    (w : OcrWord) :
    (w ∈ ws.filter (wordInRegion r) →
        hasNonWS w.text = true ∧ 30 < w.conf) ∧
    (w.conf = 30 → w ∉ ws.filter (wordInRegion r)) := by
  constructor
  · intro hw
    have hp := (List.mem_filter.mp hw).2
    simp only [wordInRegion, Bool.and_eq_true, decide_eq_true_eq] at hp
    exact ⟨hp.1.1.1.1.1, hp.1.1.1.1.2⟩
  · intro hconf hw
    have hp := (List.mem_filter.mp hw).2
    simp [wordInRegion, hconf] at hp

/-- Witness for C8: a confidence-30 word is excluded. -/
theorem c8_confidence_filter_witness :
    mkWord "abc" 0 0 40 10 30 ∉
      [mkWord "abc" 0 0 40 10 30].filter
        (wordInRegion ⟨0, 0, 100, 100, mkRat 4 5⟩) := by
  exact (c8_confidence_filter [mkWord "abc" 0 0 40 10 30]
    ⟨0, 0, 100, 100, mkRat 4 5⟩ (mkWord "abc" 0 0 40 10 30)).2 (by decide)

/-- C10: when the first start-keyword word sits at `top = 0`, the
truthiness guard `if table_start_y and ...` keeps the end scan from
ever firing, so `table_end_y` takes the bottom-of-content default
`max(tops) + max(heights)` — even when an end-keyword word lies
strictly below the anchor. -/
theorem c10_zero_start_truthiness (ws : List OcrWord)
    (pat : VendorPattern)
    (h : (findStartWord ws pat).map (fun w => w.top) = some 0) :
    findEndTop ws pat (some 0) = none ∧
    ∀ r, detect_table_region ws pat = some r →
      r.y = 0 ∧ r.y + r.height = maxTopAll ws + maxHeightAll ws := by
  have hend : findEndTop ws pat (some 0) = none := by
    simp only [findEndTop]
    refine Option.map_eq_none'.mpr (List.find?_eq_none.mpr ?_)
    intro w hw
    simp
  refine ⟨hend, ?_⟩
  intro r hr
  obtain ⟨sw, hsw, htop⟩ :
      ∃ sw, findStartWord ws pat = some sw ∧ sw.top = 0 := by
    cases hfs : findStartWord ws pat with
    | none => simp [hfs] at h
    | some sw => exact ⟨sw, rfl, by simpa [hfs] using h⟩
  have hey : tableEndY ws pat 0 = maxTopAll ws + maxHeightAll ws := by
    simp [tableEndY, hend]
  simp only [detect_table_region, hsw] at hr
  rw [htop] at hr
  cases hband : bandOf ws 0 (tableEndY ws pat 0) with
  | nil => rw [hband] at hr; simp [regionFrom] at hr
  | cons b bs =>
      rw [hband] at hr
      simp only [regionFrom, Option.some_inj] at hr
      rw [← hr]
      refine ⟨rfl, ?_⟩
      simp [hey]

/-- Witness for C10: start anchor at the very top, `Subtotal` strictly
below; the end scan still returns nothing and the detected region runs
to `max(tops) + max(heights) = 110`. -/
theorem c10_zero_start_truthiness_witness :
    findEndTop c10Input genericPattern (some 0) = none ∧
    ((⟨0, 0, 60, 110, mkRat 4 5⟩ : TableRegion).y = 0 ∧
      (⟨0, 0, 60, 110, mkRat 4 5⟩ : TableRegion).y +
          (⟨0, 0, 60, 110, mkRat 4 5⟩ : TableRegion).height =
        maxTopAll c10Input + maxHeightAll c10Input) := by
  have h := c10_zero_start_truthiness c10Input genericPattern (by decide)
  exact ⟨h.1, h.2 ⟨0, 0, 60, 110, mkRat 4 5⟩ (by decide)⟩

theorem foldl_min_le_init (f : OcrWord → Int) (l : List OcrWord) :
    ∀ init : Int, l.foldl (fun m w => min m (f w)) init ≤ init := by
  induction l with
  | nil => intro init; simp
  | cons a l ih =>
      intro init
      rw [List.foldl_cons]
      exact le_trans (ih _) (min_le_left _ _)

theorem foldl_min_le (f : OcrWord → Int) (l : List OcrWord) :
    ∀ (init : Int), ∀ w ∈ l,
      l.foldl (fun m v => min m (f v)) init ≤ f w := by
  induction l with
  | nil => intro _ w hw; cases hw
  | cons a l ih =>
      intro init w hw
      rw [List.foldl_cons]
      rcases List.mem_cons.mp hw with h | h
      · subst h
        exact le_trans (foldl_min_le_init f l _) (min_le_right _ _)
      · exact ih _ w h

theorem le_foldl_max_init (f : OcrWord → Int) (l : List OcrWord) :
    ∀ init : Int, init ≤ l.foldl (fun m w => max m (f w)) init := by
  induction l with
  | nil => intro init; simp
  | cons a l ih =>
      intro init
      rw [List.foldl_cons]
      exact le_trans (le_max_left _ _) (ih _)

theorem le_foldl_max (f : OcrWord → Int) (l : List OcrWord) :
    ∀ (init : Int), ∀ w ∈ l,
      f w ≤ l.foldl (fun m v => max m (f v)) init := by
  induction l with
  | nil => intro _ w hw; cases hw
  | cons a l ih =>
      intro init w hw
      rw [List.foldl_cons]
      rcases List.mem_cons.mp hw with h | h
      · subst h
        exact le_trans (le_max_right _ _) (le_foldl_max_init f l _)
      · exact ih _ w h

theorem le_maxTopAll (ws : List OcrWord) : ∀ w ∈ ws, w.top ≤ maxTopAll ws := by
  intro w hw
  cases ws with
  | nil => cases hw
  | cons v vs =>
      simp only [maxTopAll]
      rcases List.mem_cons.mp hw with h | h
      · subst h; exact le_foldl_max_init _ vs _
      · exact le_foldl_max _ vs _ _ h

theorem le_maxHeightAll (ws : List OcrWord) :
    ∀ w ∈ ws, w.height ≤ maxHeightAll ws := by
  intro w hw
  cases ws with
  | nil => cases hw
  | cons v vs =>
      simp only [maxHeightAll]
      rcases List.mem_cons.mp hw with h | h
      · subst h; exact le_foldl_max_init _ vs _
      · exact le_foldl_max _ vs _ _ h

theorem bandMinLeft_le (b : OcrWord) (bs : List OcrWord) :
    ∀ w ∈ b :: bs, bandMinLeft b bs ≤ w.left := by
  intro w hw
  simp only [bandMinLeft]
  rcases List.mem_cons.mp hw with h | h
  · subst h; exact foldl_min_le_init _ bs _
  · exact foldl_min_le _ bs _ _ h

theorem le_bandMaxRight (b : OcrWord) (bs : List OcrWord) :
    ∀ w ∈ b :: bs, w.left + w.width ≤ bandMaxRight b bs := by
  intro w hw
  simp only [bandMaxRight]
  rcases List.mem_cons.mp hw with h | h
  · subst h; exact le_foldl_max_init _ bs _
  · exact le_foldl_max _ bs _ _ h

/-- C2 counterexample: on `c2Input` the detector's default end is
`max(tops) + max(heights) = 150`, while the claimed value — the largest
bottom edge over all words — is `110`. -/
theorem c2_counterexample :
    (detect_table_region c2Input genericPattern).map
        (fun r => r.y + r.height) = some 150 ∧
    specMaxBottomEdge c2Input = 110 ∧ (150 : Int) ≠ 110 := by
  exact ⟨by decide, by decide, by decide⟩

/-- C2 (amended): when a start keyword is found and the end scan yields
nothing, `table_end_y` is `max(tops) + max(heights)` — the maximum top
over all words plus the maximum height over all words, an upper bound
on, but not necessarily equal to, the largest bottom edge. -/
theorem c2_table_end_default (ws : List OcrWord) (pat : VendorPattern)
    (sw : OcrWord) (hsw : findStartWord ws pat = some sw)
    (hend : findEndTop ws pat (some sw.top) = none) :
    ∀ r, detect_table_region ws pat = some r →
      r.y + r.height = maxTopAll ws + maxHeightAll ws := by
  intro r hr
  have hey : tableEndY ws pat sw.top = maxTopAll ws + maxHeightAll ws := by
    simp [tableEndY, hend]
  simp only [detect_table_region, hsw] at hr
  cases hband : bandOf ws sw.top (tableEndY ws pat sw.top) with
  | nil => rw [hband] at hr; simp [regionFrom] at hr
  | cons b bs =>
      rw [hband] at hr
      simp only [regionFrom, Option.some_inj] at hr
      rw [← hr]
      dsimp only
      omega

/-- Witness for C2 at `c2Input`: the detected region bottom is
`150 = max(tops) + max(heights)`. -/
theorem c2_table_end_default_witness :
    (⟨0, 10, 10, 140, mkRat 4 5⟩ : TableRegion).y +
        (⟨0, 10, 10, 140, mkRat 4 5⟩ : TableRegion).height =
      maxTopAll c2Input + maxHeightAll c2Input := by
  exact c2_table_end_default c2Input genericPattern
    (mkWord "Item" 0 10 10 100) (by decide) (by decide)
    ⟨0, 10, 10, 140, mkRat 4 5⟩ (by decide)

/-- C7 counterexample: on `c7Input` the word `abc` lies in the detected
vertical band but its bounding box extends below the region's bottom
edge, so the region does not enclose it. -/
theorem c7_counterexample :
    detect_table_region c7Input genericPattern =
        some ⟨0, 10, 60, 90, mkRat 4 5⟩ ∧
    mkWord "abc" 0 99 40 100 ∈ c7Input ∧
    (⟨0, 10, 60, 90, mkRat 4 5⟩ : TableRegion).y ≤
        (mkWord "abc" 0 99 40 100).top ∧
    (mkWord "abc" 0 99 40 100).top ≤
        (⟨0, 10, 60, 90, mkRat 4 5⟩ : TableRegion).y +
          (⟨0, 10, 60, 90, mkRat 4 5⟩ : TableRegion).height ∧
    ¬((mkWord "abc" 0 99 40 100).top + (mkWord "abc" 0 99 40 100).height ≤
        (⟨0, 10, 60, 90, mkRat 4 5⟩ : TableRegion).y +
          (⟨0, 10, 60, 90, mkRat 4 5⟩ : TableRegion).height) := by
  exact ⟨by decide, by decide, by decide, by decide, by decide⟩

/-- C7 (amended): for word streams whose widths and heights are
non-negative (as OCR boxes are), every returned region has non-negative
width and height, and every word used to compute it — non-blank text
with top inside the vertical band — has its horizontal extent inside
the region's horizontal extent; its box may still overhang the region's
bottom edge. -/
theorem c7_region_bounds (ws : List OcrWord) (pat : VendorPattern)
    (hwid : ∀ w ∈ ws, 0 ≤ w.width) (hhei : ∀ w ∈ ws, 0 ≤ w.height) :
    ∀ r, detect_table_region ws pat = some r →
      0 ≤ r.width ∧ 0 ≤ r.height ∧
      ∀ w ∈ ws, hasNonWS w.text = true →
        r.y ≤ w.top → w.top ≤ r.y + r.height →
        r.x ≤ w.left ∧ w.left + w.width ≤ r.x + r.width := by
  intro r hr
  cases hfs : findStartWord ws pat with
  | none => simp [detect_table_region, hfs] at hr
  | some sw =>
      simp only [detect_table_region, hfs] at hr
      have hswmem : sw ∈ ws := List.mem_of_find?_eq_some hfs
      have hey_ge : sw.top ≤ tableEndY ws pat sw.top := by
        cases hfe : findEndTop ws pat (some sw.top) with
        | some e =>
            have he : sw.top < e := by
              simp only [findEndTop] at hfe
              rcases Option.map_eq_some'.mp hfe with ⟨v, hv, hve⟩
              have hpv := List.find?_some hv
              simp only [Bool.and_eq_true, decide_eq_true_eq] at hpv
              omega
            simp only [tableEndY, hfe]
            omega
        | none =>
            simp only [tableEndY, hfe]
            have h1 : sw.top ≤ maxTopAll ws := le_maxTopAll ws sw hswmem
            have h2 : sw.height ≤ maxHeightAll ws := le_maxHeightAll ws sw hswmem
            have h3 : 0 ≤ sw.height := hhei sw hswmem
            omega
      cases hband : bandOf ws sw.top (tableEndY ws pat sw.top) with
      | nil => rw [hband] at hr; simp [regionFrom] at hr
      | cons b bs =>
          rw [hband] at hr
          simp only [regionFrom, Option.some_inj] at hr
          have hbmem : b ∈ ws := by
            have : b ∈ bandOf ws sw.top (tableEndY ws pat sw.top) := by
              rw [hband]; exact List.mem_cons_self b bs
            exact (List.mem_filter.mp this).1
          have hwidth : 0 ≤ bandMaxRight b bs - bandMinLeft b bs := by
            have h1 : bandMinLeft b bs ≤ b.left :=
              bandMinLeft_le b bs b (List.mem_cons_self b bs)
            have h2 : b.left + b.width ≤ bandMaxRight b bs :=
              le_bandMaxRight b bs b (List.mem_cons_self b bs)
            have h3 : 0 ≤ b.width := hwid b hbmem
            omega
          rw [← hr]
          refine ⟨hwidth, by dsimp only; omega, ?_⟩
          intro w hwmem hwtext hwy1 hwy2
          have hwband : w ∈ b :: bs := by
            rw [← hband]
            refine List.mem_filter.mpr ⟨hwmem, ?_⟩
            simp only [Bool.and_eq_true, decide_eq_true_eq]
            dsimp only at hwy1 hwy2
            refine ⟨⟨hwy1, by omega⟩, hwtext⟩
          have h1 : bandMinLeft b bs ≤ w.left := bandMinLeft_le b bs w hwband
          have h2 : w.left + w.width ≤ bandMaxRight b bs :=
            le_bandMaxRight b bs w hwband
          dsimp only
          omega

/-- Witness for C7 at a concrete two-word stream with no end keyword. -/
theorem c7_region_bounds_witness :
    (0 : Int) ≤ (⟨0, 10, 45, 15, mkRat 4 5⟩ : TableRegion).width ∧
    (0 : Int) ≤ (⟨0, 10, 45, 15, mkRat 4 5⟩ : TableRegion).height ∧
    (⟨0, 10, 45, 15, mkRat 4 5⟩ : TableRegion).x ≤
        (mkWord "xy" 0 15 30 10).left ∧
    (mkWord "xy" 0 15 30 10).left + (mkWord "xy" 0 15 30 10).width ≤
      (⟨0, 10, 45, 15, mkRat 4 5⟩ : TableRegion).x +
        (⟨0, 10, 45, 15, mkRat 4 5⟩ : TableRegion).width := by
  have h := c7_region_bounds
    [mkWord "Item" 5 10 40 10, mkWord "xy" 0 15 30 10] genericPattern
    (by decide) (by decide) ⟨0, 10, 45, 15, mkRat 4 5⟩ (by decide)
  have h3 := h.2.2 (mkWord "xy" 0 15 30 10) (by decide) (by decide)
    (by decide) (by decide)
  exact ⟨h.1, h.2.1, h3.1, h3.2⟩

theorem mem_insSorted (key : OcrWord → Int) (a : OcrWord) :
    ∀ (l : List OcrWord) (x : OcrWord),
      x ∈ insSorted key a l ↔ x = a ∨ x ∈ l := by
  intro l
  induction l with
  | nil => intro x; simp [insSorted]
  | cons b bs ih =>
      intro x
      simp only [insSorted]
      by_cases h : key b ≤ key a
      · simp only [if_pos h, List.mem_cons, ih]
        tauto
      · rw [if_neg h]
        simp

theorem insSorted_pairwise (key : OcrWord → Int) (a : OcrWord) :
    ∀ l : List OcrWord,
      l.Pairwise (fun u v => key u ≤ key v) →
      (insSorted key a l).Pairwise (fun u v => key u ≤ key v) := by
  intro l
  induction l with
  | nil => intro _; simp [insSorted]
  | cons b bs ih =>
      intro hp
      rcases List.pairwise_cons.mp hp with ⟨hb, hbs⟩
      simp only [insSorted]
      by_cases h : key b ≤ key a
      · rw [if_pos h]
        refine List.pairwise_cons.mpr ⟨?_, ih hbs⟩
        intro x hx
        rcases (mem_insSorted key a bs x).mp hx with rfl | hxbs
        · exact h
        · exact hb x hxbs
      · rw [if_neg h]
        refine List.pairwise_cons.mpr ⟨?_, hp⟩
        intro x hx
        rcases List.mem_cons.mp hx with rfl | hxbs
        · omega
        · have := hb x hxbs; omega

theorem sortByKey_foldl_spec (key : OcrWord → Int) :
    ∀ (l acc : List OcrWord),
      acc.Pairwise (fun u v => key u ≤ key v) →
      ((l.foldl (fun acc w => insSorted key w acc) acc).Pairwise
          (fun u v => key u ≤ key v) ∧
        ∀ x, x ∈ l.foldl (fun acc w => insSorted key w acc) acc ↔
          x ∈ acc ∨ x ∈ l) := by
  intro l
  induction l with
  | nil =>
      intro acc h
      refine ⟨h, fun x => ?_⟩
      simp
  | cons w ws ih =>
      intro acc h
      rw [List.foldl_cons]
      have h2 := ih (insSorted key w acc) (insSorted_pairwise key w acc h)
      refine ⟨h2.1, ?_⟩
      intro x
      rw [h2.2 x, mem_insSorted]
      simp only [List.mem_cons]
      tauto

theorem sortByKey_pairwise (key : OcrWord → Int) (l : List OcrWord) :
    (sortByKey key l).Pairwise (fun u v => key u ≤ key v) :=
  (sortByKey_foldl_spec key l [] (by simp)).1

theorem mem_sortByKey (key : OcrWord → Int) (l : List OcrWord)
    (x : OcrWord) : x ∈ sortByKey key l ↔ x ∈ l := by
  have h := (sortByKey_foldl_spec key l [] (by simp)).2 x
  simpa [sortByKey] using h

theorem group_rows_aux_mem :
    ∀ (rest cur : List OcrWord) (curY : Int) (r : List OcrWord),
      r ∈ group_rows_aux rest cur curY →
      ∀ w ∈ r, w ∈ cur ∨ w ∈ rest := by
  intro rest
  induction rest with
  | nil =>
      intro cur curY r hr w hw
      simp only [group_rows_aux, List.mem_singleton] at hr
      subst hr
      exact Or.inl ((mem_sortByKey _ _ _).mp hw)
  | cons v vs ih =>
      intro cur curY r hr w hw
      simp only [group_rows_aux] at hr
      by_cases h : (v.top - curY).natAbs ≤ 10
      · rw [if_pos h] at hr
        rcases ih (cur ++ [v]) curY r hr w hw with hc | hrest
        · rcases List.mem_append.mp hc with h1 | h1
          · exact Or.inl h1
          · simp only [List.mem_singleton] at h1
            subst h1
            exact Or.inr (List.mem_cons_self _ _)
        · exact Or.inr (List.mem_cons_of_mem _ hrest)
      · rw [if_neg h] at hr
        rcases List.mem_cons.mp hr with rfl | hr2
        · exact Or.inl ((mem_sortByKey _ _ _).mp hw)
        · rcases ih [v] v.top r hr2 w hw with hc | hrest
          · simp only [List.mem_singleton] at hc
            subst hc
            exact Or.inr (List.mem_cons_self _ _)
          · exact Or.inr (List.mem_cons_of_mem _ hrest)

theorem group_rows_aux_spec :
    ∀ (rest cur : List OcrWord) (curY : Int),
      rest.Pairwise (fun u v => u.top ≤ v.top) →
      (∀ w ∈ cur, curY ≤ w.top ∧ w.top ≤ curY + 10) →
      (∀ w ∈ rest, curY ≤ w.top) →
      (∀ v ∈ cur, ∀ w ∈ rest, v.top ≤ w.top) →
      (∀ r ∈ group_rows_aux rest cur curY,
          (∃ a : Int, ∀ w ∈ r, a ≤ w.top ∧ w.top ≤ a + 10) ∧
          r.Pairwise (fun u v => u.left ≤ v.left)) ∧
      (group_rows_aux rest cur curY).Pairwise
        (fun r1 r2 => ∀ w1 ∈ r1, ∀ w2 ∈ r2, w1.top < w2.top) := by
  intro rest
  induction rest with
  | nil =>
      intro cur curY _ hcur _ _
      constructor
      · intro r hr
        simp only [group_rows_aux, List.mem_singleton] at hr
        subst hr
        refine ⟨⟨curY, ?_⟩, sortByKey_pairwise _ _⟩
        intro w hw
        exact hcur w ((mem_sortByKey _ _ _).mp hw)
      · simp [group_rows_aux]
  | cons v vs ih =>
      intro cur curY hsort hcur hrestlo hcross
      rcases List.pairwise_cons.mp hsort with ⟨hv, hvs⟩
      by_cases h : (v.top - curY).natAbs ≤ 10
      · have hvY : curY ≤ v.top := hrestlo v (List.mem_cons_self _ _)
        have hvhi : v.top ≤ curY + 10 := by omega
        have hcur2 : ∀ w ∈ cur ++ [v], curY ≤ w.top ∧ w.top ≤ curY + 10 := by
          intro w hw
          rcases List.mem_append.mp hw with h1 | h1
          · exact hcur w h1
          · simp only [List.mem_singleton] at h1
            subst h1
            exact ⟨hvY, hvhi⟩
        have hrest2 : ∀ w ∈ vs, curY ≤ w.top := by
          intro w hw
          have := hv w hw
          omega
        have hcross2 : ∀ u ∈ cur ++ [v], ∀ w ∈ vs, u.top ≤ w.top := by
          intro u hu w hw
          rcases List.mem_append.mp hu with h1 | h1
          · exact hcross u h1 w (List.mem_cons_of_mem _ hw)
          · simp only [List.mem_singleton] at h1
            subst h1
            exact hv w hw
        have hrec := ih (cur ++ [v]) curY hvs hcur2 hrest2 hcross2
        simp only [group_rows_aux, if_pos h]
        exact hrec
      · have hvY : curY ≤ v.top := hrestlo v (List.mem_cons_self _ _)
        have hgt : curY + 10 < v.top := by omega
        have hcur1 : ∀ w ∈ [v], v.top ≤ w.top ∧ w.top ≤ v.top + 10 := by
          intro w hw
          simp only [List.mem_singleton] at hw
          subst hw
          omega
        have hcross1 : ∀ u ∈ [v], ∀ w ∈ vs, u.top ≤ w.top := by
          intro u hu w hw
          simp only [List.mem_singleton] at hu
          subst hu
          exact hv w hw
        have hrec := ih [v] v.top hvs hcur1 hv hcross1
        simp only [group_rows_aux, if_neg h]
        constructor
        · intro r hr
          rcases List.mem_cons.mp hr with rfl | hr2
          · refine ⟨⟨curY, ?_⟩, sortByKey_pairwise _ _⟩
            intro w hw
            exact hcur w ((mem_sortByKey _ _ _).mp hw)
          · exact hrec.1 r hr2
        · refine List.pairwise_cons.mpr ⟨?_, hrec.2⟩
          intro r2 hr2 w1 hw1 w2 hw2
          have hw1cur : w1 ∈ cur := (mem_sortByKey _ _ _).mp hw1
          have hw1hi : w1.top ≤ curY + 10 := (hcur w1 hw1cur).2
          have hw2src := group_rows_aux_mem vs [v] v.top r2 hr2 w2 hw2
          have hw2lo : v.top ≤ w2.top := by
            rcases hw2src with h1 | h1
            · simp only [List.mem_singleton] at h1
              subst h1
              omega
            · exact hv w2 h1
          omega

/-- C6: every row emitted by the grouper keeps all member tops within
10 units of the first member's top, rows come out in strictly
increasing order of their first member's top, and each row is sorted by
the horizontal position. -/
theorem c6_row_grouper_invariants (ws : List OcrWord) :
    (∀ r ∈ group_words_by_rows ws,
        r.Pairwise (fun u v => u.left ≤ v.left) ∧
        ∀ f, r.head? = some f →
          ∀ w ∈ r, (w.top - f.top).natAbs ≤ 10) ∧
    (group_words_by_rows ws).Pairwise
      (fun r1 r2 => ∀ f1 f2, r1.head? = some f1 → r2.head? = some f2 →
        f1.top < f2.top) := by
  unfold group_words_by_rows
  cases hs : sortByKey (fun w => w.top) ws with
  | nil => simp
  | cons w rest =>
      have hsorted : (w :: rest).Pairwise (fun u v => u.top ≤ v.top) := by
        rw [← hs]
        exact sortByKey_pairwise _ _
      rcases List.pairwise_cons.mp hsorted with ⟨hw, hrest⟩
      have hspec := group_rows_aux_spec rest [w] w.top hrest
        (by
          intro u hu
          simp only [List.mem_singleton] at hu
          subst hu
          omega)
        hw
        (by
          intro u hu x hx
          simp only [List.mem_singleton] at hu
          subst hu
          exact hw x hx)
      constructor
      · intro r hr
        obtain ⟨⟨a, hband⟩, hxs⟩ := hspec.1 r hr
        refine ⟨hxs, ?_⟩
        intro f hf w2 hw2
        have hfmem : f ∈ r := List.mem_of_mem_head? (by simp [hf])
        have h1 := hband f hfmem
        have h2 := hband w2 hw2
        omega
      · refine List.Pairwise.imp ?_ hspec.2
        intro r1 r2 hlt f1 f2 hf1 hf2
        exact hlt f1 (List.mem_of_mem_head? (by simp [hf1])) f2
          (List.mem_of_mem_head? (by simp [hf2]))

/-- Witness for C6 on a three-word stream that groups into two rows. -/
theorem c6_row_grouper_invariants_witness :
    ((mkWord "b" 30 5 5 5).top - (mkWord "a" 0 0 5 5).top).natAbs ≤ 10 ∧
    (mkWord "a" 0 0 5 5).top < (mkWord "c" 10 20 5 5).top := by
  have h := c6_row_grouper_invariants
    [mkWord "b" 30 5 5 5, mkWord "a" 0 0 5 5, mkWord "c" 10 20 5 5]
  constructor
  · exact (h.1 [mkWord "a" 0 0 5 5, mkWord "b" 30 5 5 5] (by decide)).2
      (mkWord "a" 0 0 5 5) (by decide) (mkWord "b" 30 5 5 5) (by decide)
  · have h2 := h.2
    rw [show group_words_by_rows
        [mkWord "b" 30 5 5 5, mkWord "a" 0 0 5 5, mkWord "c" 10 20 5 5] =
        [[mkWord "a" 0 0 5 5, mkWord "b" 30 5 5 5], [mkWord "c" 10 20 5 5]]
      from by decide] at h2
    exact (List.pairwise_cons.mp h2).1 [mkWord "c" 10 20 5 5] (by simp)
      (mkWord "a" 0 0 5 5) (mkWord "c" 10 20 5 5) rfl rfl

theorem pyFindall_ok (ic : Bool) (p : Regex) (t : String)
    (h : patCompiles p = true) :
    pyFindall ic p t = .ok (findall ic p t) := by
  simp [pyFindall, h]

theorem pyFindall_err (ic : Bool) (p : Regex) (t : String)
    (h : patCompiles p = false) :
    pyFindall ic p t = .error .reNothingToRepeat := by
  simp [pyFindall, h]

/-- Under the generic vendor pattern, every row that passes the length
and header filters raises `re.error`: the first three column patterns
compile and their findalls run, then the `unit_price` findall hits the
quantified `$` anchor. -/
theorem parse_generic_accepted_raises (row : List OcrWord)
    (hlen : ¬row.length < 2)
    (hkw : containsAnyKeyword headerKeywords (rowTextOf row) = false) :
    parse_row_to_line_item row genericPattern =
      .error .reNothingToRepeat := by
  have hitem := pyFindall_ok true genericPattern.item_number_pat
    (rowTextOf row) (by decide)
  have hdesc := pyFindall_ok true genericPattern.description_pat
    (rowTextOf row) (by decide)
  have hqty := pyFindall_ok true genericPattern.quantity_pat
    (rowTextOf row) (by decide)
  have hunit := pyFindall_err true genericPattern.unit_price_pat
    (rowTextOf row) (by decide)
  simp [parse_row_to_line_item, hlen, hkw, hitem, hdesc, hqty, hunit]

/-- C9 (amended): the append guard at the bottom of the extraction loop
does test `item_number`/`description`/`quantity`, but no price-only
item ever reaches it: classifying any row that passes the early filters
raises `re.error` (the price pattern never compiles), so the collection
loop either aborts with that exception or — when every row was filtered
out early — returns an empty list.  No `LineItem` with non-empty price
fields is ever produced, and none is ever silently omitted. -/
theorem c9_no_silent_price_drop :
    (∀ row : List OcrWord, ¬row.length < 2 →
        containsAnyKeyword headerKeywords (rowTextOf row) = false →
        parse_row_to_line_item row genericPattern =
          .error .reNothingToRepeat) ∧
    (∀ (rows : List (List OcrWord)) (items : List LineItem),
        collectLineItems rows genericPattern = .ok items → items = []) := by
  refine ⟨parse_generic_accepted_raises, ?_⟩
  intro rows
  induction rows with
  | nil =>
      intro items h
      simp only [collectLineItems, Except.ok.injEq] at h
      exact h.symm
  | cons row rest ih =>
      intro items h
      cases hp : parse_row_to_line_item row genericPattern with
      | error e => simp [collectLineItems, hp] at h
      | ok oli =>
          cases oli with
          | none =>
              simp only [collectLineItems, hp] at h
              exact ih items h
          | some li =>
              exfalso
              by_cases hlen : row.length < 2
              · have hn := parse_none_of_reject row genericPattern
                  (Or.inl hlen)
                rw [hp] at hn
                simp at hn
              · by_cases hkw :
                    containsAnyKeyword headerKeywords (rowTextOf row) = true
                · have hn := parse_none_of_reject row genericPattern
                    (Or.inr hkw)
                  rw [hp] at hn
                  simp at hn
                · simp only [Bool.not_eq_true] at hkw
                  have hn := parse_generic_accepted_raises row hlen hkw
                  rw [hp] at hn
                  simp at hn

/-- C9 counterexample: at the one kind of row the claim's scenario
could name — words of the shape `\\d\.\dd`, the only texts the
backslash-laden price pattern could describe — nothing is "silently
omitted": row classification raises `re.error`, the collection loop
aborts with the exception, and the outcome is not an item-less success. -/
theorem c9_counterexample :
    parse_row_to_line_item slashRow genericPattern =
      .error .reNothingToRepeat ∧
    collectLineItems [slashRow] genericPattern =
      .error .reNothingToRepeat ∧
    (Except.error PyErr.reNothingToRepeat :
        Except PyErr (List LineItem)) ≠ .ok [] := by
  exact ⟨by decide, by decide, by decide⟩

/-- Witness for C9: the first part applied at `slashRow` (which passes
both early filters), the second at a single one-word row (which the
early filter rejects, so collection succeeds with an empty list). -/
theorem c9_no_silent_price_drop_witness :
    parse_row_to_line_item slashRow genericPattern =
      .error .reNothingToRepeat ∧
    ([] : List LineItem) = [] := by
  refine ⟨c9_no_silent_price_drop.1 slashRow (by decide) (by decide), ?_⟩
  exact c9_no_silent_price_drop.2 [[mkWord "loneword" 0 0 40 10]] []
    (by decide)
